import Mathlib

/-!
A verification development for the term/value core of the pikelet language
implementation.  The data model and operations are shallowly embedded from
the Rust sources:

* `src/syntax/mod.rs` — `Level`, `LevelShift`, `Label` and their arithmetic;
* `src/syntax/core.rs` — `Term`, `Pattern`, `Value`, `Neutral`, `Head`,
  `Spine`, substitution (`RcTerm::substs`, `Value::substs`), universe
  shifting (`RcValue::shift_universes`, `RcNeutral::shift_universes`),
  the normal-form predicates, `head_app`, `free_var_app`, and the
  `From<&Value> for Term` quotation;
* `nameless/src/var.rs` — the generic `Var<N, B>` type of the `nameless`
  crate with its `close_at` operation.

Reference-counted wrappers (`RcTerm`, `RcValue`, `RcNeutral`, `Rc`) are
identity wrappers for the purposes of the algorithms and are erased; the
`Scope`/`Nest`/`Embed` wrappers of the `moniker` crate are flattened into
the constructors that carry them (the algorithms modelled here access
their `unsafe_pattern`/`unsafe_body` fields directly, never through
`bind`/`unbind`).  Rust `Vec`s of subterms become the inline list types
declared in the same mutual blocks (`TermFields`, `TermClauses`,
`TermList`, `ValueFields`, `ValueClauses`, `ValueList`).  The `u32`
fields of `Level` and `LevelShift` are modelled as `Nat` with addition
wrapping modulo `2 ^ 32`, matching Rust release-mode semantics.
-/

/-- The `u32` modulus: arithmetic on `Level` and `LevelShift` wraps at this. -/
def u32Mod : Nat := 4294967296

/-- A universe level (`Level(pub u32)` in `src/syntax/mod.rs`). -/
structure Level where
  toNat : Nat
deriving DecidableEq, Repr

/-- A shift in universe level (`LevelShift(pub u32)` in `src/syntax/mod.rs`). -/
structure LevelShift where
  toNat : Nat
deriving DecidableEq, Repr

/-- `impl Add<LevelShift> for Level`: `Level(self.0 + other.0)` on `u32`. -/
def Level.add (l : Level) (s : LevelShift) : Level :=
  ⟨(l.toNat + s.toNat) % u32Mod⟩

/-- `impl Add for LevelShift`: `LevelShift(self.0 + other.0)` on `u32`. -/
def LevelShift.add (a b : LevelShift) : LevelShift :=
  ⟨(a.toNat + b.toNat) % u32Mod⟩

/-- A record-field label (`Label(pub String)` in `src/syntax/mod.rs`). -/
structure Label where
  name : String
deriving DecidableEq, Repr

/-- A free variable of the `moniker` crate (`FreeVar<String>`): a display
name together with a globally unique disambiguator. -/
structure FreeVar where
  name : String
  id : Nat
deriving DecidableEq, Repr

/-- A bound variable of the `moniker` crate (`BoundVar<String>`): a scope
offset, a binder index within the scope's pattern, and a display name. -/
structure BoundVar where
  scopeDepth : Nat
  binderIndex : Nat
  name : String
deriving DecidableEq, Repr

/-- `moniker::Var<String>`: either free or bound. -/
inductive Var where
  | free (fv : FreeVar)
  | bound (bv : BoundVar)
deriving DecidableEq, Repr

/-- `moniker::Binder<String>`: a binder occurrence, wrapping a free variable. -/
structure Binder where
  fv : FreeVar
deriving DecidableEq, Repr

/-- Literals (`core::Literal`).  The payloads of the fixed-width integer
variants are carried as unbounded integers and the `f32`/`f64` payloads as
their raw bit patterns; every operation modelled here treats literals as
atomic, so the payload representation is never consulted. -/
inductive Literal where
  | bool (b : Bool)
  | string (s : String)
  | char (c : Char)
  | u8 (n : Nat)
  | u16 (n : Nat)
  | u32 (n : Nat)
  | u64 (n : Nat)
  | i8 (n : Int)
  | i16 (n : Int)
  | i32 (n : Int)
  | i64 (n : Int)
  | f32 (bits : Nat)
  | f64 (bits : Nat)
deriving DecidableEq, Repr

mutual

/-- The core term syntax (`core::Term`).  `Pi`/`Lam`/`Let` flatten
`Scope<(Binder<String>, Embed<RcTerm>), RcTerm>` into a binder, an
annotation (resp. bound term) and a body; `RecordType`/`Record` flatten
`Scope<Nest<(Label, Binder<String>, Embed<RcTerm>)>, ()>` into a field
telescope; `Case` carries its clauses as pattern/body pairs.  `Ext` models
`Term::Extern` (an external definition: name and type annotation). -/
inductive Term where
  | Ann (term ty : Term)
  | Universe (level : Level)
  | Literal (lit : Literal)
  | Var (v : Var) (shift : LevelShift)
  | Ext (name : String) (ty : Term)
  | Pi (binder : Binder) (ann : Term) (body : Term)
  | Lam (binder : Binder) (ann : Term) (body : Term)
  | App (fn arg : Term)
  | If (cond ifTrue ifFalse : Term)
  | RecordType (fields : TermFields)
  | Record (fields : TermFields)
  | Proj (term : Term) (lbl : Label)
  | Case (head : Term) (clauses : TermClauses)
  | Array (elems : TermList)
  | Let (binder : Binder) (bound : Term) (body : Term)
deriving DecidableEq

/-- Case-branch patterns (`core::Pattern`). -/
inductive Pattern where
  | Ann (pat : Pattern) (ty : Term)
  | Binder (b : Binder)
  | Var (v : Var) (shift : LevelShift)
  | Literal (lit : Literal)
deriving DecidableEq

/-- The telescope of a record type or record:
`Nest<(Label, Binder<String>, Embed<RcTerm>)>`. -/
inductive TermFields where
  | nil
  | cons (lbl : Label) (binder : Binder) (ann : Term) (rest : TermFields)
deriving DecidableEq

/-- The clause list of a case expression: `Vec<Scope<RcPattern, RcTerm>>`. -/
inductive TermClauses where
  | nil
  | cons (pat : Pattern) (body : Term) (rest : TermClauses)
deriving DecidableEq

/-- A list of terms (`Vec<RcTerm>`, used by `Term::Array`). -/
inductive TermList where
  | nil
  | cons (head : Term) (rest : TermList)
deriving DecidableEq

end

/-- The substitution mapping taken by `substs`:
`&[(FreeVar<String>, RcTerm)]`, searched front to back. -/
abbrev Mappings := List (FreeVar × Term)

/-- The lookup performed by the `Term::Var` arm of `RcTerm::substs`:
`mappings.iter().find(|&(ref name, _)| var == name)`.  The `moniker`
comparison `Var == FreeVar` holds exactly when the variable is `Free` and
its free variable equals the key, so a `Bound` variable never matches. -/
def lookupVar (mappings : Mappings) (v : Var) : Option Term :=
  match v with
  | .free fv => (mappings.find? fun p => decide (p.1 = fv)).map Prod.snd
  | .bound _ => none

mutual

/-- `RcTerm::substs` from `src/syntax/core.rs`.  Binder-carrying variants
recurse into their annotations and bodies while keeping the stored binder;
`Term::Case` keeps each clause's pattern unchanged (the source clones it,
with a `// subst?` remark) and substitutes only in the clause body. -/
def Term.substs : Term → Mappings → Term
  | .Ann term ty, m => .Ann (term.substs m) (ty.substs m)
  | .Universe l, _ => .Universe l
  | .Literal l, _ => .Literal l
  | .Var v shift, m =>
    match lookupVar m v with
    | some term => term
    | none => .Var v shift
  | .Ext name ty, m => .Ext name (ty.substs m)
  | .Pi binder ann body, m => .Pi binder (ann.substs m) (body.substs m)
  | .Lam binder ann body, m => .Lam binder (ann.substs m) (body.substs m)
  | .Let binder bound body, m => .Let binder (bound.substs m) (body.substs m)
  | .App fn arg, m => .App (fn.substs m) (arg.substs m)
  | .If cond ifTrue ifFalse, m =>
    .If (cond.substs m) (ifTrue.substs m) (ifFalse.substs m)
  | .RecordType fields, m => .RecordType (fields.substs m)
  | .Record fields, m => .Record (fields.substs m)
  | .Proj term lbl, m => .Proj (term.substs m) lbl
  | .Case head clauses, m => .Case (head.substs m) (clauses.substs m)
  | .Array elems, m => .Array (elems.substs m)

/-- Field-wise substitution over a record telescope (labels and binders
kept, annotations substituted), as in the `Term::RecordType`/`Term::Record`
arms of `RcTerm::substs`.  (The source short-circuits when the telescope is
empty; on an empty telescope the traversal below returns the same empty
telescope, so the fast path is not a semantic difference.) -/
def TermFields.substs : TermFields → Mappings → TermFields
  | .nil, _ => .nil
  | .cons lbl binder ann rest, m =>
    .cons lbl binder (ann.substs m) (rest.substs m)

/-- Clause-wise substitution for `Term::Case`: each clause's pattern is
kept unchanged (`unsafe_pattern: scope.unsafe_pattern.clone()`), only the
body is substituted. -/
def TermClauses.substs : TermClauses → Mappings → TermClauses
  | .nil, _ => .nil
  | .cons pat body rest, m => .cons pat (body.substs m) (rest.substs m)

/-- Element-wise substitution for `Term::Array`. -/
def TermList.substs : TermList → Mappings → TermList
  | .nil, _ => .nil
  | .cons head rest, m => .cons (head.substs m) (rest.substs m)

end

mutual

/-- Values (`core::Value`): canonical forms, or a neutral term applied to
a spine of pending arguments. -/
inductive Value where
  | Universe (level : Level)
  | Literal (lit : Literal)
  | Pi (binder : Binder) (ann : Value) (body : Value)
  | Lam (binder : Binder) (ann : Value) (body : Value)
  | RecordType (fields : ValueFields)
  | Record (fields : ValueFields)
  | Array (elems : ValueList)
  | Neutral (neutral : Neutral) (spine : ValueList)
deriving DecidableEq

/-- Neutral values (`core::Neutral`): a stuck head, or a pending
conditional, projection, or case dispatch over a neutral scrutinee.
Case clauses pair a (term-level) pattern with a value body, as in
`Vec<Scope<RcPattern, RcValue>>`. -/
inductive Neutral where
  | Head (h : Head)
  | If (cond : Neutral) (ifTrue ifFalse : Value)
  | Proj (neutral : Neutral) (lbl : Label)
  | Case (neutral : Neutral) (clauses : ValueClauses)
deriving DecidableEq

/-- The head of an application (`core::Head`): a variable not yet replaced
by a definition, or an external definition with its type (`Head::Extern`,
modelled by `Ext`). -/
inductive Head where
  | Var (v : Var) (shift : LevelShift)
  | Ext (name : String) (ty : Value)
deriving DecidableEq

/-- The telescope of a record-type or record value:
`Nest<(Label, Binder<String>, Embed<RcValue>)>`. -/
inductive ValueFields where
  | nil
  | cons (lbl : Label) (binder : Binder) (ann : Value) (rest : ValueFields)
deriving DecidableEq

/-- The clause list of a stuck case expression:
`Vec<Scope<RcPattern, RcValue>>`. -/
inductive ValueClauses where
  | nil
  | cons (pat : Pattern) (body : Value) (rest : ValueClauses)
deriving DecidableEq

/-- A list of values; `Spine = Vec<RcValue>` is this type. -/
inductive ValueList where
  | nil
  | cons (head : Value) (rest : ValueList)
deriving DecidableEq

end

/-- The spine of a neutral term: arguments awaiting application. -/
abbrev Spine := ValueList

/-- `Value::is_whnf`: `true` exactly on the canonical (non-`Neutral`)
variants. -/
def Value.is_whnf : Value → Bool
  | .Universe _ => true
  | .Literal _ => true
  | .Pi _ _ _ => true
  | .Lam _ _ _ => true
  | .RecordType _ => true
  | .Record _ => true
  | .Array _ => true
  | .Neutral _ _ => false

mutual

/-- `Value::is_nf`: `true` iff the value contains no neutral term at any
depth; `Pi`/`Lam` check their annotation and body, record types/records
check every field, arrays every element. -/
def Value.is_nf : Value → Bool
  | .Universe _ => true
  | .Literal _ => true
  | .Pi _ ann body => ann.is_nf && body.is_nf
  | .Lam _ ann body => ann.is_nf && body.is_nf
  | .RecordType fields => fields.is_nf
  | .Record fields => fields.is_nf
  | .Array elems => elems.is_nf
  | .Neutral _ _ => false

/-- `iter().all(...)` over a value telescope's field annotations. -/
def ValueFields.is_nf : ValueFields → Bool
  | .nil => true
  | .cons _ _ ann rest => ann.is_nf && rest.is_nf

/-- `iter().all(...)` over a value list. -/
def ValueList.is_nf : ValueList → Bool
  | .nil => true
  | .cons head rest => head.is_nf && rest.is_nf

end

/-- `Value::head_app`: the stuck head and its spine when the value is a
`Neutral` whose inner neutral is a bare `Head`; `none` otherwise. -/
def Value.head_app : Value → Option (Head × Spine)
  | .Neutral neutral spine =>
    match neutral with
    | .Head h => some (h, spine)
    | _ => none
  | _ => none

/-- `Value::free_var_app`: `head_app` specialized (via `and_then`) to a
head that is a free-variable reference; extern heads and bound-variable
heads yield `none`. -/
def Value.free_var_app (v : Value) : Option (FreeVar × LevelShift × Spine) :=
  v.head_app.bind fun hs =>
    match hs with
    | (.Var (.free fv) shift, spine) => some (fv, shift, spine)
    | (.Ext _ _, _) => none
    | (.Var (.bound _) _, _) => none

mutual

/-- `RcValue::shift_universes`: adds the shift to every `Universe` level,
recursing through `Pi`/`Lam` annotations and bodies, record fields, array
elements, and both components of a `Neutral`.  (The Rust code mutates in
place through `Rc::make_mut`, i.e. copy-on-write; modelled as a pure
function.) -/
def Value.shift_universes : Value → LevelShift → Value
  | .Universe level, shift => .Universe (level.add shift)
  | .Literal l, _ => .Literal l
  | .Pi binder ann body, shift =>
    .Pi binder (ann.shift_universes shift) (body.shift_universes shift)
  | .Lam binder ann body, shift =>
    .Lam binder (ann.shift_universes shift) (body.shift_universes shift)
  | .RecordType fields, shift => .RecordType (fields.shift_universes shift)
  | .Record fields, shift => .Record (fields.shift_universes shift)
  | .Array elems, shift => .Array (elems.shift_universes shift)
  | .Neutral neutral spine, shift =>
    .Neutral (neutral.shift_universes shift) (spine.shift_universes shift)

/-- `RcNeutral::shift_universes`: the shift recorded on a variable head is
left unchanged (the rewriting of that shift is commented out in the source
with the remark "Not sure if this is correct!"); an extern head's type is
shifted; `If`/`Proj`/`Case` recurse into their neutral scrutinee and value
components, with case patterns left unshifted (a `FIXME` in the source). -/
def Neutral.shift_universes : Neutral → LevelShift → Neutral
  | .Head (.Var v shift), _ => .Head (.Var v shift)
  | .Head (.Ext name ty), shift => .Head (.Ext name (ty.shift_universes shift))
  | .If cond ifTrue ifFalse, shift =>
    .If (cond.shift_universes shift) (ifTrue.shift_universes shift)
      (ifFalse.shift_universes shift)
  | .Proj neutral lbl, shift => .Proj (neutral.shift_universes shift) lbl
  | .Case neutral clauses, shift =>
    .Case (neutral.shift_universes shift) (clauses.shift_universes shift)

/-- Field-wise shifting over a value telescope. -/
def ValueFields.shift_universes : ValueFields → LevelShift → ValueFields
  | .nil, _ => .nil
  | .cons lbl binder ann rest, shift =>
    .cons lbl binder (ann.shift_universes shift) (rest.shift_universes shift)

/-- Clause-wise shifting for stuck case expressions: bodies are shifted,
patterns are not. -/
def ValueClauses.shift_universes : ValueClauses → LevelShift → ValueClauses
  | .nil, _ => .nil
  | .cons pat body rest, shift =>
    .cons pat (body.shift_universes shift) (rest.shift_universes shift)

/-- Element-wise shifting over a value list (spines and arrays). -/
def ValueList.shift_universes : ValueList → LevelShift → ValueList
  | .nil, _ => .nil
  | .cons head rest, shift =>
    .cons (head.shift_universes shift) (rest.shift_universes shift)

end

mutual

/-- `impl From<&Value> for Term`: the quotation of a value back into
syntax.  A `Neutral` is quoted by re-quoting the head-like neutral and
folding the spine onto it left to right with `Term.App` (the source's
`spine.iter().fold(...)`, here `Term.appSpine`). -/
def Term.fromValue : Value → Term
  | .Universe level => .Universe level
  | .Literal lit => .Literal lit
  | .Pi binder ann body => .Pi binder (Term.fromValue ann) (Term.fromValue body)
  | .Lam binder ann body => .Lam binder (Term.fromValue ann) (Term.fromValue body)
  | .RecordType fields => .RecordType (Term.fromValueFields fields)
  | .Record fields => .Record (Term.fromValueFields fields)
  | .Array elems => .Array (Term.fromValueList elems)
  | .Neutral neutral spine => Term.appSpine (Term.fromNeutral neutral) spine

/-- The left fold of a spine onto an accumulated head term:
`spine.iter().fold(acc, |acc, arg| Term::App(acc, arg))`. -/
def Term.appSpine : Term → Spine → Term
  | acc, .nil => acc
  | acc, .cons arg rest => Term.appSpine (.App acc (Term.fromValue arg)) rest

/-- `impl From<&Neutral> for Term`. -/
def Term.fromNeutral : Neutral → Term
  | .Head h => Term.fromHead h
  | .If cond ifTrue ifFalse =>
    .If (Term.fromNeutral cond) (Term.fromValue ifTrue) (Term.fromValue ifFalse)
  | .Proj neutral lbl => .Proj (Term.fromNeutral neutral) lbl
  | .Case neutral clauses =>
    .Case (Term.fromNeutral neutral) (Term.fromValueClauses clauses)

/-- `impl From<&Head> for Term`. -/
def Term.fromHead : Head → Term
  | .Var v shift => .Var v shift
  | .Ext name ty => .Ext name (Term.fromValue ty)

/-- Quotation of a value telescope. -/
def Term.fromValueFields : ValueFields → TermFields
  | .nil => .nil
  | .cons lbl binder ann rest =>
    .cons lbl binder (Term.fromValue ann) (Term.fromValueFields rest)

/-- Quotation of stuck case clauses: patterns are reused unchanged, bodies
are quoted. -/
def Term.fromValueClauses : ValueClauses → TermClauses
  | .nil => .nil
  | .cons pat body rest =>
    .cons pat (Term.fromValue body) (Term.fromValueClauses rest)

/-- Quotation of a value list. -/
def Term.fromValueList : ValueList → TermList
  | .nil => .nil
  | .cons head rest => .cons (Term.fromValue head) (Term.fromValueList rest)

end

/-- `Value::substs`: substitution on values quotes the value to a term and
substitutes there (`RcTerm::from(Term::from(self)).substs(mappings)`). -/
def Value.substs (v : Value) (mappings : Mappings) : Term :=
  (Term.fromValue v).substs mappings

namespace Nameless

/-- `nameless::Var<N, B>` from `nameless/src/var.rs`: a variable that is
either free, or bound (`Named<N, B>`: a display name and a de Bruijn
index). -/
inductive Var (N B : Type) where
  | free (n : N)
  | bound (name : N) (inner : B)
deriving DecidableEq, Repr

/-- `Var::close_at` from `nameless/src/var.rs`: rewrites `Free(n)` to
`Bound(Named::new(n, index))` when `n == name`; any other variable —
already bound, or free under a different name — is returned unchanged. -/
def Var.close_at {N B : Type} [DecidableEq N] (v : Var N B) (index : B)
    (name : N) : Var N B :=
  match v with
  | .free n => if n = name then .bound n index else .free n
  | .bound nm i => .bound nm i

end Nameless

/-- Modelled from the spec: the lookup demanded of `substs` by the
specification — the term corresponding to a free variable when its name is
a key of the finite mapping, and nothing otherwise.  (It agrees
definitionally with the free-variable case of `lookupVar`.) -/
def specLookup (m : Mappings) (x : FreeVar) : Option Term :=
  (m.find? fun p => decide (p.1 = x)).map Prod.snd

mutual

/-- Modelled from the spec: `SubstSpec m t t'` holds when `t'` is `t` with
every `Free` variable occurrence whose name is a key of `m` replaced by
the corresponding term, every `Bound` variable and every `Free` variable
outside `m`'s domain left unchanged, binders' stored display names left
unchanged, and the patterns of case-expression branches left entirely
unchanged. -/
inductive SubstSpec : Mappings → Term → Term → Prop where
  | ann {m t t' ty ty'} : SubstSpec m t t' → SubstSpec m ty ty' →
      SubstSpec m (.Ann t ty) (.Ann t' ty')
  | univ {m l} : SubstSpec m (.Universe l) (.Universe l)
  | lit {m l} : SubstSpec m (.Literal l) (.Literal l)
  | var_free_replaced {m x s u} : specLookup m x = some u →
      SubstSpec m (.Var (.free x) s) u
  | var_free_kept {m x s} : specLookup m x = none →
      SubstSpec m (.Var (.free x) s) (.Var (.free x) s)
  | var_bound {m bv s} : SubstSpec m (.Var (.bound bv) s) (.Var (.bound bv) s)
  | ext {m n ty ty'} : SubstSpec m ty ty' → SubstSpec m (.Ext n ty) (.Ext n ty')
  | pi {m b ann ann' body body'} : SubstSpec m ann ann' → SubstSpec m body body' →
      SubstSpec m (.Pi b ann body) (.Pi b ann' body')
  | lam {m b ann ann' body body'} : SubstSpec m ann ann' → SubstSpec m body body' →
      SubstSpec m (.Lam b ann body) (.Lam b ann' body')
  | app {m fn fn' arg arg'} : SubstSpec m fn fn' → SubstSpec m arg arg' →
      SubstSpec m (.App fn arg) (.App fn' arg')
  | ifE {m c c' t t' e e'} : SubstSpec m c c' → SubstSpec m t t' → SubstSpec m e e' →
      SubstSpec m (.If c t e) (.If c' t' e')
  | recordType {m fs fs'} : SubstSpecFields m fs fs' →
      SubstSpec m (.RecordType fs) (.RecordType fs')
  | record {m fs fs'} : SubstSpecFields m fs fs' →
      SubstSpec m (.Record fs) (.Record fs')
  | proj {m t t' lbl} : SubstSpec m t t' → SubstSpec m (.Proj t lbl) (.Proj t' lbl)
  | case {m h h' cs cs'} : SubstSpec m h h' → SubstSpecClauses m cs cs' →
      SubstSpec m (.Case h cs) (.Case h' cs')
  | array {m es es'} : SubstSpecList m es es' → SubstSpec m (.Array es) (.Array es')
  | letE {m b bound bound' body body'} : SubstSpec m bound bound' →
      SubstSpec m body body' → SubstSpec m (.Let b bound body) (.Let b bound' body')

/-- Modelled from the spec: field-wise substitution over a record
telescope — the labels and binders are kept, each annotation is
substituted. -/
inductive SubstSpecFields : Mappings → TermFields → TermFields → Prop where
  | nil {m} : SubstSpecFields m .nil .nil
  | cons {m lbl b ann ann' rest rest'} : SubstSpec m ann ann' →
      SubstSpecFields m rest rest' →
      SubstSpecFields m (.cons lbl b ann rest) (.cons lbl b ann' rest')

/-- Modelled from the spec (as amended): clause-wise substitution over
case branches — each branch's pattern is left entirely unchanged and only
the branch body is substituted. -/
inductive SubstSpecClauses : Mappings → TermClauses → TermClauses → Prop where
  | nil {m} : SubstSpecClauses m .nil .nil
  | cons {m pat body body' rest rest'} : SubstSpec m body body' →
      SubstSpecClauses m rest rest' →
      SubstSpecClauses m (.cons pat body rest) (.cons pat body' rest')

/-- Modelled from the spec: element-wise substitution over an array's
elements, preserving order. -/
inductive SubstSpecList : Mappings → TermList → TermList → Prop where
  | nil {m} : SubstSpecList m .nil .nil
  | cons {m head head' rest rest'} : SubstSpec m head head' →
      SubstSpecList m rest rest' →
      SubstSpecList m (.cons head rest) (.cons head' rest')

end

/-! Concrete inputs used by counterexamples, concrete scenarios, and
witnesses. -/

/-- The free variable `x` used in the substitution counterexample. -/
def xFree : FreeVar := ⟨"x", 0⟩

/-- A case expression with a single branch whose pattern is a binder
annotated with the type `Var (Free x)` and whose body is `Var (Free x)`:
`case true { (y : x) => x }`. -/
def caseTermX : Term :=
  .Case (.Literal (.bool true))
    (.cons (.Ann (.Binder ⟨⟨"y", 1⟩⟩) (.Var (.free xFree) ⟨0⟩))
      (.Var (.free xFree) ⟨0⟩) .nil)

/-- The substitution mapping `{x ↦ Universe 0}`. -/
def mappingX : Mappings := [(xFree, .Universe ⟨0⟩)]

/-- A Pi type whose body is a neutral application `f (Universe 0)` — in
weak head normal form but not in normal form. -/
def piWithNeutralBody : Value :=
  .Pi ⟨⟨"a", 2⟩⟩ (.Universe ⟨0⟩)
    (.Neutral (.Head (.Var (.free ⟨"f", 3⟩) ⟨0⟩))
      (.cons (.Universe ⟨0⟩) .nil))

/-- The stuck head `Var (Free "f")` of the `head_app` concrete scenario. -/
def fHead : Head := .Var (.free ⟨"f", 3⟩) ⟨0⟩

/-- A two-argument spine `[Universe 1, Universe 2]`. -/
def twoSpine : Spine := .cons (.Universe ⟨1⟩) (.cons (.Universe ⟨2⟩) .nil)

/-- A stuck conditional: `Neutral::If` over a stuck boolean condition. -/
def stuckIf : Neutral :=
  .If (.Head (.Var (.free ⟨"c", 4⟩) ⟨0⟩)) (.Universe ⟨1⟩) (.Universe ⟨2⟩)

/-! Helper lemmas (shared infrastructure for the claim theorems below). -/

/-- Adding two shifts in sequence is adding their (wrapping) sum. -/
theorem Level.add_add (l : Level) (a b : LevelShift) :
    (l.add a).add b = l.add (a.add b) := by
  simp only [Level.add, LevelShift.add, u32Mod, Level.mk.injEq]
  omega

mutual

/-- `Term.substs` satisfies the substitution specification. -/
theorem substs_sound (m : Mappings) : ∀ t : Term, SubstSpec m t (t.substs m)
  | .Ann t ty => .ann (substs_sound m t) (substs_sound m ty)
  | .Universe _ => .univ
  | .Literal _ => .lit
  | .Var v s => by
    cases v with
    | free x =>
      have e : Term.substs (.Var (.free x) s) m
          = match specLookup m x with
            | some u => u
            | none => .Var (.free x) s := rfl
      cases h : specLookup m x with
      | some u =>
        rw [e, h]
        exact SubstSpec.var_free_replaced h
      | none =>
        rw [e, h]
        exact SubstSpec.var_free_kept h
    | bound bv => exact SubstSpec.var_bound
  | .Ext _ ty => .ext (substs_sound m ty)
  | .Pi _ ann body => .pi (substs_sound m ann) (substs_sound m body)
  | .Lam _ ann body => .lam (substs_sound m ann) (substs_sound m body)
  | .App fn arg => .app (substs_sound m fn) (substs_sound m arg)
  | .If c t e => .ifE (substs_sound m c) (substs_sound m t) (substs_sound m e)
  | .RecordType fs => .recordType (substsFields_sound m fs)
  | .Record fs => .record (substsFields_sound m fs)
  | .Proj t _ => .proj (substs_sound m t)
  | .Case h cs => .case (substs_sound m h) (substsClauses_sound m cs)
  | .Array es => .array (substsList_sound m es)
  | .Let _ bound body => .letE (substs_sound m bound) (substs_sound m body)

/-- `TermFields.substs` satisfies the field-wise specification. -/
theorem substsFields_sound (m : Mappings) :
    ∀ fs : TermFields, SubstSpecFields m fs (fs.substs m)
  | .nil => .nil
  | .cons _ _ ann rest => .cons (substs_sound m ann) (substsFields_sound m rest)

/-- `TermClauses.substs` satisfies the clause-wise specification. -/
theorem substsClauses_sound (m : Mappings) :
    ∀ cs : TermClauses, SubstSpecClauses m cs (cs.substs m)
  | .nil => .nil
  | .cons _ body rest => .cons (substs_sound m body) (substsClauses_sound m rest)

/-- `TermList.substs` satisfies the element-wise specification. -/
theorem substsList_sound (m : Mappings) :
    ∀ es : TermList, SubstSpecList m es (es.substs m)
  | .nil => .nil
  | .cons head rest => .cons (substs_sound m head) (substsList_sound m rest)

end

mutual

/-- Shifting a value by `a` and then by `b` is shifting once by `a + b`. -/
theorem shiftValue_add : ∀ (v : Value) (a b : LevelShift),
    (v.shift_universes a).shift_universes b = v.shift_universes (a.add b)
  | .Universe l, a, b => by
    simp [Value.shift_universes, Level.add_add]
  | .Literal _, _, _ => rfl
  | .Pi binder ann body, a, b => by
    simp [Value.shift_universes, shiftValue_add ann a b, shiftValue_add body a b]
  | .Lam binder ann body, a, b => by
    simp [Value.shift_universes, shiftValue_add ann a b, shiftValue_add body a b]
  | .RecordType fields, a, b => by
    simp [Value.shift_universes, shiftValueFields_add fields a b]
  | .Record fields, a, b => by
    simp [Value.shift_universes, shiftValueFields_add fields a b]
  | .Array elems, a, b => by
    simp [Value.shift_universes, shiftValueList_add elems a b]
  | .Neutral neutral spine, a, b => by
    simp [Value.shift_universes, shiftNeutral_add neutral a b,
      shiftValueList_add spine a b]

/-- Shift additivity for neutral values. -/
theorem shiftNeutral_add : ∀ (n : Neutral) (a b : LevelShift),
    (n.shift_universes a).shift_universes b = n.shift_universes (a.add b)
  | .Head (.Var _ _), _, _ => rfl
  | .Head (.Ext name ty), a, b => by
    simp [Neutral.shift_universes, shiftValue_add ty a b]
  | .If cond ifTrue ifFalse, a, b => by
    simp [Neutral.shift_universes, shiftNeutral_add cond a b,
      shiftValue_add ifTrue a b, shiftValue_add ifFalse a b]
  | .Proj neutral lbl, a, b => by
    simp [Neutral.shift_universes, shiftNeutral_add neutral a b]
  | .Case neutral clauses, a, b => by
    simp [Neutral.shift_universes, shiftNeutral_add neutral a b,
      shiftValueClauses_add clauses a b]

/-- Shift additivity for value telescopes. -/
theorem shiftValueFields_add : ∀ (fs : ValueFields) (a b : LevelShift),
    (fs.shift_universes a).shift_universes b = fs.shift_universes (a.add b)
  | .nil, _, _ => rfl
  | .cons lbl binder ann rest, a, b => by
    simp [ValueFields.shift_universes, shiftValue_add ann a b,
      shiftValueFields_add rest a b]

/-- Shift additivity for stuck case clauses. -/
theorem shiftValueClauses_add : ∀ (cs : ValueClauses) (a b : LevelShift),
    (cs.shift_universes a).shift_universes b = cs.shift_universes (a.add b)
  | .nil, _, _ => rfl
  | .cons pat body rest, a, b => by
    simp [ValueClauses.shift_universes, shiftValue_add body a b,
      shiftValueClauses_add rest a b]

/-- Shift additivity for value lists. -/
theorem shiftValueList_add : ∀ (vs : ValueList) (a b : LevelShift),
    (vs.shift_universes a).shift_universes b = vs.shift_universes (a.add b)
  | .nil, _, _ => rfl
  | .cons head rest, a, b => by
    simp [ValueList.shift_universes, shiftValue_add head a b,
      shiftValueList_add rest a b]

end

/-! The claim theorems. -/

/-- C1 (counterexample): substitution does NOT replace `Free` occurrences
inside the annotations of case-branch patterns.  Substituting
`{x ↦ Universe 0}` into `case true { (y : x) => x }` replaces the `x` in
the branch body but leaves the `x` in the pattern's annotation untouched,
whereas the claim demands the annotation become `Universe 0` as well. -/
theorem substs_case_pattern_counterexample :
    Term.substs caseTermX mappingX
        = .Case (.Literal (.bool true))
            (.cons (.Ann (.Binder ⟨⟨"y", 1⟩⟩) (.Var (.free xFree) ⟨0⟩))
              (.Universe ⟨0⟩) .nil)
      ∧ Term.substs caseTermX mappingX
          ≠ .Case (.Literal (.bool true))
              (.cons (.Ann (.Binder ⟨⟨"y", 1⟩⟩) (.Universe ⟨0⟩))
                (.Universe ⟨0⟩) .nil) := by
  decide

/-- C1 (amended): for every term `t` and finite mapping `m`,
`substs(t, m)` replaces every `Free` occurrence whose name is a key of `m`
by the corresponding term and leaves every `Bound` variable and every
`Free` variable outside `m`'s domain unchanged — except that the patterns
of case-expression branches (annotations included) are copied entirely
unchanged, substitution descending only into the branch bodies. -/
theorem substs_replaces_free_except_case_patterns :
    ∀ (m : Mappings) (t : Term), SubstSpec m t (t.substs m) :=
  fun m => substs_sound m

/-- C2: `shift_universes` adds the shift to the level of every `Universe`
node (concretely, `Universe(Level(3))` shifted by `LevelShift(2)` is
`Universe(Level(5))`) and recurses into extern type annotations, `Pi` and
`Lam` annotations and bodies, record-type and record fields, array
elements, and every spine argument — but the `LevelShift` recorded on a
variable-reference head of a `Neutral` is left unchanged. -/
theorem shift_universes_frame :
    (∀ (l : Level) (s : LevelShift),
        (Value.Universe l).shift_universes s = .Universe (l.add s))
  ∧ ((Value.Universe ⟨3⟩).shift_universes ⟨2⟩ = .Universe ⟨5⟩)
  ∧ (∀ (name : String) (ty : Value) (s : LevelShift),
        (Neutral.Head (.Ext name ty)).shift_universes s
          = .Head (.Ext name (ty.shift_universes s)))
  ∧ (∀ (b : Binder) (ann body : Value) (s : LevelShift),
        (Value.Pi b ann body).shift_universes s
          = .Pi b (ann.shift_universes s) (body.shift_universes s))
  ∧ (∀ (b : Binder) (ann body : Value) (s : LevelShift),
        (Value.Lam b ann body).shift_universes s
          = .Lam b (ann.shift_universes s) (body.shift_universes s))
  ∧ (∀ (lbl : Label) (b : Binder) (ann : Value) (rest : ValueFields)
        (s : LevelShift),
        (Value.RecordType (.cons lbl b ann rest)).shift_universes s
          = .RecordType
              (.cons lbl b (ann.shift_universes s) (rest.shift_universes s)))
  ∧ (∀ (lbl : Label) (b : Binder) (ann : Value) (rest : ValueFields)
        (s : LevelShift),
        (Value.Record (.cons lbl b ann rest)).shift_universes s
          = .Record
              (.cons lbl b (ann.shift_universes s) (rest.shift_universes s)))
  ∧ (∀ (head : Value) (rest : ValueList) (s : LevelShift),
        (Value.Array (.cons head rest)).shift_universes s
          = .Array (.cons (head.shift_universes s) (rest.shift_universes s)))
  ∧ (∀ (v : Var) (sh : LevelShift) (sp : Spine) (s : LevelShift),
        (Value.Neutral (.Head (.Var v sh)) sp).shift_universes s
          = .Neutral (.Head (.Var v sh)) (sp.shift_universes s)) :=
  ⟨fun _ _ => rfl, by decide, fun _ _ _ => rfl, fun _ _ _ _ => rfl,
    fun _ _ _ _ => rfl, fun _ _ _ _ _ => rfl, fun _ _ _ _ _ => rfl,
    fun _ _ _ => rfl, fun _ _ _ _ => rfl⟩

/-- C3: `shift_universes` is additive — shifting by `a` and then by `b`
equals shifting once by `LevelShift(a + b)`. -/
theorem shift_universes_additive :
    ∀ (v : Value) (a b : LevelShift),
      (v.shift_universes a).shift_universes b = v.shift_universes (a.add b) :=
  shiftValue_add

/-- C4: `head_app` returns `some (head, spine)` exactly when the value is
a `Neutral` whose inner neutral is a bare `Head`, and `none` for every
other value; concretely it extracts the head and spine from
`Neutral(Head(Var(Free "f")), [v1, v2])` and returns `none` on a stuck
conditional. -/
theorem head_app_characterization :
    (∀ (v : Value) (h : Head) (sp : Spine),
        v.head_app = some (h, sp) ↔ v = .Neutral (.Head h) sp)
  ∧ ((Value.Neutral (.Head fHead) twoSpine).head_app = some (fHead, twoSpine))
  ∧ ((Value.Neutral stuckIf .nil).head_app = none) := by
  refine ⟨fun v h sp => ?_, by decide, by decide⟩
  cases v with
  | Neutral n sp2 => cases n <;> simp_all [Value.head_app]
  | Universe l => simp [Value.head_app]
  | Literal l => simp [Value.head_app]
  | Pi b ann body => simp [Value.head_app]
  | Lam b ann body => simp [Value.head_app]
  | RecordType fs => simp [Value.head_app]
  | Record fs => simp [Value.head_app]
  | Array es => simp [Value.head_app]

/-- C4 witness: the characterization applied at a concrete bare-headed
neutral value. -/
theorem head_app_characterization_witness :
    (Value.Neutral (.Head fHead) .nil).head_app = some (fHead, (.nil : Spine)) :=
  (head_app_characterization.1 _ fHead .nil).mpr rfl

/-- C5: quoting a `Neutral(head, spine)` value back into a term re-quotes
the head and folds the spine onto it left to right through nested `App`
nodes, preserving the argument order of the spine. -/
theorem fromValue_neutral_spine_fold :
    (∀ (n : Neutral) (sp : Spine),
        Term.fromValue (.Neutral n sp) = Term.appSpine (Term.fromNeutral n) sp)
  ∧ (∀ acc : Term, Term.appSpine acc .nil = acc)
  ∧ (∀ (acc : Term) (v : Value) (rest : Spine),
        Term.appSpine acc (.cons v rest)
          = Term.appSpine (.App acc (Term.fromValue v)) rest)
  ∧ (∀ (n : Neutral) (v1 v2 : Value),
        Term.fromValue (.Neutral n (.cons v1 (.cons v2 .nil)))
          = .App (.App (Term.fromNeutral n) (Term.fromValue v1))
              (Term.fromValue v2)) :=
  ⟨fun _ _ => rfl, fun _ => rfl, fun _ _ _ => rfl, fun _ _ _ => rfl⟩

/-- C6: every value in normal form is in weak head normal form, but not
conversely — a Pi type whose body is a neutral application is in weak head
normal form yet not in normal form. -/
theorem is_nf_implies_is_whnf_not_conversely :
    (∀ v : Value, v.is_nf = true → v.is_whnf = true)
  ∧ piWithNeutralBody.is_whnf = true ∧ piWithNeutralBody.is_nf = false := by
  refine ⟨fun v h => ?_, by decide, by decide⟩
  cases v <;> simp_all [Value.is_nf, Value.is_whnf]

/-- C6 witness: the implication applied at a concrete normal form. -/
theorem is_nf_implies_is_whnf_witness :
    (Value.Universe ⟨0⟩).is_whnf = true :=
  is_nf_implies_is_whnf_not_conversely.1 (Value.Universe ⟨0⟩) rfl

/-- C7: `free_var_app` returns `some (name, shift, spine)` exactly when
`head_app` returns a free-variable head, and returns `none` when the head
is an extern reference, when the head is a bound-variable reference, and
whenever `head_app` itself returns `none`. -/
theorem free_var_app_characterization :
    (∀ (v : Value) (x : FreeVar) (s : LevelShift) (sp : Spine),
        v.free_var_app = some (x, s, sp)
          ↔ v.head_app = some (.Var (.free x) s, sp))
  ∧ (∀ (v : Value) (name : String) (ty : Value) (sp : Spine),
        v.head_app = some (.Ext name ty, sp) → v.free_var_app = none)
  ∧ (∀ (v : Value) (bv : BoundVar) (s : LevelShift) (sp : Spine),
        v.head_app = some (.Var (.bound bv) s, sp) → v.free_var_app = none)
  ∧ (∀ v : Value, v.head_app = none → v.free_var_app = none) := by
  refine ⟨fun v x s sp => ?_, fun v name ty sp h => ?_,
    fun v bv s sp h => ?_, fun v h => ?_⟩
  · cases hh : v.head_app with
    | none => simp [Value.free_var_app, hh]
    | some p =>
      obtain ⟨h2, sp2⟩ := p
      cases h2 with
      | Var v2 s2 => cases v2 <;> simp [Value.free_var_app, hh, and_assoc]
      | Ext n2 ty2 => simp [Value.free_var_app, hh]
  · simp [Value.free_var_app, h]
  · simp [Value.free_var_app, h]
  · simp [Value.free_var_app, h]

/-- C7 witness: `free_var_app` is `none` on a concrete value on which
`head_app` is `none`. -/
theorem free_var_app_characterization_witness :
    (Value.Universe ⟨0⟩).free_var_app = none :=
  free_var_app_characterization.2.2.2 (Value.Universe ⟨0⟩) rfl

/-- C8: `close_at` is idempotent — after a successful rewrite the variant
is no longer `Free`, so a second application with the same index and name
is a no-op, and an unsuccessful application is already a no-op. -/
theorem close_at_idempotent {N B : Type} [DecidableEq N] :
    ∀ (v : Nameless.Var N B) (index : B) (name : N),
      (v.close_at index name).close_at index name = v.close_at index name := by
  intro v index name
  cases v with
  | free n => by_cases h : n = name <;> simp [Nameless.Var.close_at, h]
  | bound nm i => rfl

/-- C8 witness: idempotence at a concrete free variable that the call
successfully rewrites. -/
theorem close_at_idempotent_witness :
    ((Nameless.Var.free "x" : Nameless.Var String Nat).close_at 0 "x").close_at
        0 "x"
      = (Nameless.Var.free "x" : Nameless.Var String Nat).close_at 0 "x" :=
  close_at_idempotent (Nameless.Var.free "x") 0 "x"

/-- C9: substitution on values is definitionally quotation followed by
term substitution. -/
theorem value_substs_is_quote_then_substitute :
    ∀ (v : Value) (m : Mappings), v.substs m = (Term.fromValue v).substs m :=
  fun _ _ => rfl

/-- C10: when `substs` replaces `Term::Var(Free(x), s)` because `x` is a
key of the mapping, the replacement is the mapped term exactly as given —
the `LevelShift` stored on the replaced variable is discarded, and the
result does not depend on that shift. -/
theorem substs_var_discards_shift :
    ∀ (x : FreeVar) (s sAlt : LevelShift) (m : Mappings) (u : Term),
      lookupVar m (.free x) = some u →
        Term.substs (.Var (.free x) s) m = u
          ∧ Term.substs (.Var (.free x) s) m
              = Term.substs (.Var (.free x) sAlt) m := by
  intro x s sAlt m u h
  have e : ∀ sh : LevelShift,
      Term.substs (.Var (.free x) sh) m
        = match lookupVar m (.free x) with
          | some w => w
          | none => .Var (.free x) sh := fun _ => rfl
  refine ⟨?_, ?_⟩
  · rw [e s, h]
  · rw [e s, e sAlt, h]

/-- C10 witness: substituting `{x ↦ Universe 0}` into `Var(Free x)`
carrying shift 5 yields `Universe 0` with no shift recorded, and agrees
with the result at shift 9. -/
theorem substs_var_discards_shift_witness :
    Term.substs (.Var (.free xFree) ⟨5⟩) mappingX = .Universe ⟨0⟩
      ∧ Term.substs (.Var (.free xFree) ⟨5⟩) mappingX
          = Term.substs (.Var (.free xFree) ⟨9⟩) mappingX :=
  substs_var_discards_shift xFree ⟨5⟩ ⟨9⟩ mappingX (.Universe ⟨0⟩) (by decide)
